import Mathlib

/-!
Verification development for the hotel-instance / participant check-in core of
an event-management server.  The definitions below are a shallow embedding of
the TypeScript source: `DatabaseStorage` (storage.ts), the
`PUT /api/admin/hotels/:id` route and the admin checkout / early-checkout
routes (routes.ts), and the `UploadService` row loops (upload.ts).  JavaScript
`Date` values are modelled as integer timestamps (milliseconds), and the
database tables as lists of records.
-/

namespace Ievolve

/-- A dynamically typed field value, as stored in a hotel record: either a
text column or a numeric/timestamp column. -/
inductive FieldVal where
  | str (s : String)
  | int (n : Int)
deriving DecidableEq, Repr

/-- One row of the `hotels` table (shared/schema.ts).  `startDate`/`endDate`
are timestamps modelled as `Int`. -/
structure Hotel where
  id : String
  hotelId : String
  instanceCode : String
  hotelName : String
  location : String
  district : String
  address : String
  pincode : String
  startDate : Int
  endDate : Int
  totalRooms : Int
  occupiedRooms : Int
  availableRooms : Int
deriving DecidableEq, Repr

/-- The updatable fields of a hotel record (the keys of `updateHotelSchema`:
everything except `id`, `hotelId`, `instanceCode`, `createdAt`). -/
inductive HotelField where
  | hotelName
  | location
  | district
  | address
  | pincode
  | startDate
  | endDate
  | totalRooms
  | occupiedRooms
  | availableRooms
deriving DecidableEq, Repr

def allHotelFields : List HotelField :=
  [.hotelName, .location, .district, .address, .pincode,
   .startDate, .endDate, .totalRooms, .occupiedRooms, .availableRooms]

def Hotel.getField (h : Hotel) : HotelField → FieldVal
  | .hotelName => .str h.hotelName
  | .location => .str h.location
  | .district => .str h.district
  | .address => .str h.address
  | .pincode => .str h.pincode
  | .startDate => .int h.startDate
  | .endDate => .int h.endDate
  | .totalRooms => .int h.totalRooms
  | .occupiedRooms => .int h.occupiedRooms
  | .availableRooms => .int h.availableRooms

/-- A parsed `updateHotelSchema` payload.  All fields are required by the zod
schema except `occupiedRooms` (its column has a database default, so the key
may be absent from the parsed object).  The schema's refinement additionally
guarantees `endDate > startDate`; theorems take that as a hypothesis where
needed. -/
structure HotelPatch where
  hotelName : String
  location : String
  district : String
  address : String
  pincode : String
  startDate : Int
  endDate : Int
  totalRooms : Int
  occupiedRooms : Option Int
  availableRooms : Int
deriving DecidableEq, Repr

/-- The value the patch object carries for a field (`none` when the key is
absent, which can only happen for `occupiedRooms`). -/
def HotelPatch.getField? (p : HotelPatch) : HotelField → Option FieldVal
  | .hotelName => some (.str p.hotelName)
  | .location => some (.str p.location)
  | .district => some (.str p.district)
  | .address => some (.str p.address)
  | .pincode => some (.str p.pincode)
  | .startDate => some (.int p.startDate)
  | .endDate => some (.int p.endDate)
  | .totalRooms => some (.int p.totalRooms)
  | .occupiedRooms => p.occupiedRooms.map FieldVal.int
  | .availableRooms => some (.int p.availableRooms)

/-- Field-level diff of the route (routes.ts:426-444): a field is changed when
the patch carries a value different from the original record (dates are
compared by their timestamp, other values by strict equality). -/
def changedFields (p : HotelPatch) (orig : Hotel) : List HotelField :=
  allHotelFields.filter fun f =>
    match p.getField? f with
    | some v => decide (v ≠ orig.getField f)
    | none => false

/-- The hard-coded property-wide field list of the route (routes.ts:452). -/
def isPropertyWide : HotelField → Bool
  | .address => true
  | .location => true
  | .pincode => true
  | .district => true
  | _ => false

/-- Overwrite one field of a hotel record with the patch's value for it
(no-op when the patch does not carry the field). -/
def Hotel.setFrom (h : Hotel) (p : HotelPatch) : HotelField → Hotel
  | .hotelName => { h with hotelName := p.hotelName }
  | .location => { h with location := p.location }
  | .district => { h with district := p.district }
  | .address => { h with address := p.address }
  | .pincode => { h with pincode := p.pincode }
  | .startDate => { h with startDate := p.startDate }
  | .endDate => { h with endDate := p.endDate }
  | .totalRooms => { h with totalRooms := p.totalRooms }
  | .occupiedRooms =>
      match p.occupiedRooms with
      | some v => { h with occupiedRooms := v }
      | none => h
  | .availableRooms => { h with availableRooms := p.availableRooms }

/-- Apply a set of patch fields to a record (the effect of a drizzle
`update(...).set(fields)` restricted to `fields`). -/
def Hotel.applyFrom (h : Hotel) (p : HotelPatch) (fs : List HotelField) : Hotel :=
  fs.foldl (fun acc f => acc.setFrom p f) h

/-- The SQL overlap condition of `getHotelsWithOverlappingDates` /
`checkHotelDateConflicts` (storage.ts:533-537): candidate range `[s1, e1]`
against a stored row's range `[s2, e2]`. -/
def codeOverlap (s1 e1 s2 e2 : Int) : Bool :=
  (decide (s2 ≥ s1) && decide (s2 ≤ e1)) ||
  (decide (e2 ≥ s1) && decide (e2 ≤ e1)) ||
  (decide (s2 ≤ s1) && decide (e2 ≥ e1))

/-- The specification's overlap formula for ranges: `s1 <= e2 AND s2 <= e1`. -/
def rangesOverlap (s1 e1 s2 e2 : Int) : Prop :=
  s1 ≤ e2 ∧ s2 ≤ e1

instance (s1 e1 s2 e2 : Int) : Decidable (rangesOverlap s1 e1 s2 e2) := by
  unfold rangesOverlap; infer_instance

/-- `DatabaseStorage.getHotelsWithOverlappingDates` (storage.ts:526-540). -/
def getHotelsWithOverlappingDates (store : List Hotel) (hotelId : String)
    (startDate endDate : Int) : List Hotel :=
  store.filter fun h =>
    h.hotelId == hotelId && codeOverlap startDate endDate h.startDate h.endDate

/-- `DatabaseStorage.checkHotelDateConflicts` (storage.ts:542-557). -/
def checkHotelDateConflicts (store : List Hotel) (hotelId excludeInstanceCode : String)
    (startDate endDate : Int) : List Hotel :=
  store.filter fun h =>
    h.hotelId == hotelId && h.instanceCode != excludeInstanceCode &&
      codeOverlap startDate endDate h.startDate h.endDate

/-- Modelled from the spec: `updateAllInstancesOfHotel(hotelId,
propertyWideFields) -> HotelInstance[]` (spec section 4.1).  The route calls
`storage.updateHotelsByHotelId`, whose implementation is not among the
provided sources; per the spec it applies the property-wide fields to every
instance sharing the `hotelId`. -/
def updateHotelsByHotelId (store : List Hotel) (hotelId : String) (p : HotelPatch)
    (fs : List HotelField) : List Hotel :=
  store.map fun h => if h.hotelId == hotelId then h.applyFrom p fs else h

/-- `DatabaseStorage.updateHotel` (storage.ts:512-519): update the row whose
primary key is `id` and return the updated row (`none` when no row matched). -/
def storageUpdateHotel (store : List Hotel) (id : String) (p : HotelPatch)
    (fs : List HotelField) : List Hotel × Option Hotel :=
  (store.map fun h => if h.id == id then h.applyFrom p fs else h,
   (store.find? fun h => h.id == id).map fun h => h.applyFrom p fs)

/-- The conflict payload returned to the client (routes.ts:413-418). -/
structure ConflictInfo where
  id : String
  instanceCode : String
  startDate : Int
  endDate : Int
deriving DecidableEq, Repr

/-- One `from`/`to` pair of an audit `changes` object. -/
structure FieldChange where
  field : HotelField
  fromVal : FieldVal
  toVal : FieldVal
deriving DecidableEq, Repr

/-- The `details` payload of the two kinds of hotel-edit audit entries
(routes.ts:476-485 and routes.ts:505-514). -/
inductive AuditDetails where
  | propertyWide (hotelId : String) (affectedInstances : Nat)
      (changes : List FieldChange) (changedKeys : List HotelField)
  | instanceSpecific (hotelId instanceCode : String)
      (changes : List FieldChange) (changedKeys : List HotelField)
deriving DecidableEq, Repr

def AuditDetails.isPropertyWideEntry : AuditDetails → Bool
  | .propertyWide _ _ _ _ => true
  | .instanceSpecific _ _ _ _ => false

/-- An audit-log record as produced by `storage.createAuditLog`. -/
structure AuditEntry where
  userId : String
  actionType : String
  targetEntity : String
  targetId : String
  details : AuditDetails
deriving DecidableEq, Repr

/-- Result of the `PUT /api/admin/hotels/:id` handler. -/
inductive UpdateOutcome where
  | notFound
  | dateConflict (conflicts : List ConflictInfo)
  | noChanges (hotel : Hotel)
  | updated (hotel : Hotel) (changedKeys : List HotelField) (affectedInstances : Nat)
deriving DecidableEq, Repr

def UpdateOutcome.isUpdated : UpdateOutcome → Bool
  | .updated _ _ _ => true
  | _ => false

/-- The handler's observable effect: HTTP-level outcome, the hotels table
afterwards, and the audit entries written. -/
structure UpdateResult where
  outcome : UpdateOutcome
  store : List Hotel
  audits : List AuditEntry
deriving Repr

/-- `conflictingHotels` of the route (routes.ts:388-402): the conflict query
runs only when the patch's dates differ from the stored ones. -/
def conflictList (store : List Hotel) (o : Hotel) (p : HotelPatch) : List Hotel :=
  if p.startDate != o.startDate || p.endDate != o.endDate then
    checkHotelDateConflicts store o.hotelId o.instanceCode p.startDate p.endDate
  else []

/-- `propertyWideChanges` of the route (routes.ts:451-462), as a field list. -/
def pwOf (p : HotelPatch) (o : Hotel) : List HotelField :=
  (changedFields p o).filter isPropertyWide

/-- `instanceSpecificChanges` of the route (routes.ts:451-462). -/
def instOf (p : HotelPatch) (o : Hotel) : List HotelField :=
  (changedFields p o).filter fun f => !isPropertyWide f

/-- The hotels table after the property-wide phase (routes.ts:467-468). -/
def pwStore (store : List Hotel) (o : Hotel) (p : HotelPatch) : List Hotel :=
  if (pwOf p o).isEmpty then store
  else updateHotelsByHotelId store o.hotelId p (pwOf p o)

/-- `updatedHotels`: the rows returned by the property-wide update. -/
def pwUpdatedList (store : List Hotel) (o : Hotel) (p : HotelPatch) : List Hotel :=
  if (pwOf p o).isEmpty then []
  else (store.filter fun h => h.hotelId == o.hotelId).map fun h =>
    h.applyFrom p (pwOf p o)

/-- The per-field before/after object of an audit entry
(routes.ts:480-483 and routes.ts:509-512). -/
def auditChanges (o : Hotel) (p : HotelPatch) (fs : List HotelField) : List FieldChange :=
  fs.map fun f => ⟨f, o.getField f, (p.getField? f).getD (o.getField f)⟩

/-- The audit entries of the property-wide phase (routes.ts:471-486). -/
def pwAudits (store : List Hotel) (userId : String) (o : Hotel) (p : HotelPatch) :
    List AuditEntry :=
  if (pwOf p o).isEmpty then []
  else
    [⟨userId, "edit", "hotel", o.hotelId,
      .propertyWide o.hotelId (pwUpdatedList store o p).length
        (auditChanges o p (pwOf p o)) (pwOf p o)⟩]

/-- `affectedInstances` of the route response (routes.ts:520). -/
def affectedCount (store : List Hotel) (o : Hotel) (p : HotelPatch) : Nat :=
  if (pwOf p o).isEmpty then 1 else (pwUpdatedList store o p).length

/-- Body of `PUT /api/admin/hotels/:id` after the original record was loaded
(routes.ts:384-527). -/
def putCore (store : List Hotel) (userId id : String) (p : HotelPatch) (o : Hotel) :
    UpdateResult :=
  if (conflictList store o p).length > 0 then
    ⟨.dateConflict ((conflictList store o p).map fun h =>
        ⟨h.id, h.instanceCode, h.startDate, h.endDate⟩), store, []⟩
  else if (changedFields p o).isEmpty then
    ⟨.noChanges o, store, []⟩
  else if (instOf p o).isEmpty then
    ⟨.updated o (changedFields p o) (affectedCount store o p),
     pwStore store o p, pwAudits store userId o p⟩
  else
    match storageUpdateHotel (pwStore store o p) id p (instOf p o) with
    | (store2, none) => ⟨.notFound, store2, pwAudits store userId o p⟩
    | (store2, some updatedHotel) =>
      ⟨.updated updatedHotel (changedFields p o) (affectedCount store o p),
       store2,
       pwAudits store userId o p ++
         [⟨userId, "edit", "hotel", id,
           .instanceSpecific o.hotelId o.instanceCode
             (auditChanges o p (instOf p o)) (instOf p o)⟩]⟩

/-- The `PUT /api/admin/hotels/:id` handler (routes.ts:370-538). -/
def putAdminHotel (store : List Hotel) (userId id : String) (p : HotelPatch) :
    UpdateResult :=
  match store.find? fun h => h.id == id with
  | none => ⟨.notFound, store, []⟩
  | some originalHotel => putCore store userId id p originalHotel

/-- Spec invariant: for a fixed `hotelId`, the date ranges of distinct
instances (distinguished by `instanceCode`) are pairwise non-overlapping. -/
def HotelStoreInvariant (store : List Hotel) : Prop :=
  ∀ h1 ∈ store, ∀ h2 ∈ store, h1.hotelId = h2.hotelId →
    h1.instanceCode ≠ h2.instanceCode →
    ¬ rangesOverlap h1.startDate h1.endDate h2.startDate h2.endDate

instance (store : List Hotel) : Decidable (HotelStoreInvariant store) := by
  unfold HotelStoreInvariant; infer_instance

/-! ## Hotel-inventory upload (upload.ts: `UploadService.uploadHotelInventory`) -/

/-- One data row of the hotel-inventory sheet after cell extraction.  The
`StartDate`/`EndDate` cells are modelled as already-parsed timestamps; a
missing `HotelID`/`InstanceCode` cell is the empty string (JavaScript
truthiness of `""` is false). -/
structure HotelRow where
  hotelId : String
  instanceCode : String
  hotelName : String
  location : String
  district : String
  address : String
  pincode : String
  startDate : Int
  endDate : Int
  totalRooms : Int
  occupiedRooms : Int
  availableRooms : Int
deriving DecidableEq, Repr

/-- How processing of one hotel-inventory row ended: which of `errors[]`,
`warnings[]` or `created` it contributed to. -/
inductive RowOutcome where
  | missingIds
  | overlapError
  | existsWarning
  | created (h : Hotel)
deriving DecidableEq, Repr

/-- Processing of one data row of `uploadHotelInventory` (upload.ts:112-165):
reject when `HotelID`/`InstanceCode` is missing, reject when the range
overlaps an existing instance of the hotel, warn-and-skip when the
(hotelId, instanceCode) pair already exists, otherwise insert.  `freshId` is
the database-generated primary key of the inserted row. -/
def uploadHotelRow (store : List Hotel) (freshId : String) (row : HotelRow) :
    RowOutcome × List Hotel :=
  if row.hotelId == "" || row.instanceCode == "" then
    (.missingIds, store)
  else if (getHotelsWithOverlappingDates store row.hotelId row.startDate row.endDate).length > 0 then
    (.overlapError, store)
  else
    match store.find? fun h => h.hotelId == row.hotelId && h.instanceCode == row.instanceCode with
    | some _ => (.existsWarning, store)
    | none =>
      let newHotel : Hotel :=
        ⟨freshId, row.hotelId, row.instanceCode, row.hotelName, row.location,
         row.district, row.address, row.pincode, row.startDate, row.endDate,
         row.totalRooms, row.occupiedRooms, row.availableRooms⟩
      (.created newHotel, store ++ [newHotel])

/-! ## Participants and check-in/check-out (routes.ts, upload.ts) -/

inductive CheckinStatus where
  | pending
  | checked_in
  | checked_out
deriving DecidableEq, Repr

/-- One row of the `participants` table (shared/schema.ts).  Timestamps are
modelled as `Int`. -/
structure Participant where
  id : String
  participantId : String
  name : String
  mobileNumber : Option String
  role : String
  discipline : String
  district : Option String
  teamName : Option String
  coachId : Option String
  hotelId : String
  hotelName : String
  stadium : Option String
  bookingStartDate : Int
  bookingEndDate : Int
  bookingReference : String
  transportPoc : Option String
  checkinStatus : CheckinStatus
  checkinTime : Option Int
  checkoutTime : Option Int
  actualCheckoutDate : Option Int
deriving DecidableEq, Repr

/-- The field update applied to each checked-out participant
(routes.ts:759-763): `checkinStatus := checked_out`, `checkoutTime := now`,
and `actualCheckoutDate := newCheckoutDate` only when a new date was sent
(an `undefined` value is dropped from the drizzle update set). -/
def checkoutUpdate (now : Int) (nd : Option Int) (q : Participant) : Participant :=
  { q with
    checkinStatus := .checked_out
    checkoutTime := some now
    actualCheckoutDate :=
      match nd with
      | some d => some d
      | none => q.actualCheckoutDate }

/-- The checkout skip condition (routes.ts:752-757): when a `newCheckoutDate`
was sent and lies strictly after the participant's `bookingEndDate`, the
participant is skipped. -/
def skipByDate (nd : Option Int) (q : Participant) : Bool :=
  match nd with
  | some d => decide (d > q.bookingEndDate)
  | none => false

/-- One iteration of the admin-checkout loop (routes.ts:744-768).  State is
(participants table, `checkedOutParticipants` accumulator). -/
def adminCheckoutStep (now : Int) (nd : Option Int)
    (st : List Participant × List Participant) (pid : String) :
    List Participant × List Participant :=
  match st.1.find? fun q => q.participantId == pid with
  | none => st
  | some q =>
    if skipByDate nd q then st
    else
      let newStore := st.1.map fun r => if r.id == q.id then checkoutUpdate now nd r else r
      match newStore.find? fun r => r.id == q.id with
      | none => (newStore, st.2)
      | some u => (newStore, st.2 ++ [u])

/-- The `POST /api/admin/checkout` loop (routes.ts:738-785); audit logging is
an external collaborator and is not part of the modelled state. -/
def adminCheckout (ps : List Participant) (participantIds : List String)
    (nd : Option Int) (now : Int) : List Participant × List Participant :=
  participantIds.foldl (adminCheckoutStep now nd) (ps, [])

/-- The field update of the early-checkout loop (routes.ts:839-841): only
`actualCheckoutDate` is written, with no comparison against
`bookingEndDate`. -/
def earlyUpdate (nd : Option Int) (q : Participant) : Participant :=
  { q with
    actualCheckoutDate :=
      match nd with
      | some d => some d
      | none => q.actualCheckoutDate }

/-- One iteration of the `POST /api/admin/early-checkout` loop
(routes.ts:832-865); the notification messages it also builds are handed to
an external collaborator and are not modelled. -/
def earlyCheckoutStep (nd : Option Int)
    (st : List Participant × List Participant) (pid : String) :
    List Participant × List Participant :=
  match st.1.find? fun q => q.participantId == pid with
  | none => st
  | some q =>
    let newStore := st.1.map fun r => if r.id == q.id then earlyUpdate nd r else r
    match newStore.find? fun r => r.id == q.id with
    | none => (newStore, st.2)
    | some u => (newStore, st.2 ++ [u])

/-- The `POST /api/admin/early-checkout` loop (routes.ts:825-887). -/
def adminEarlyCheckout (ps : List Participant) (participantIds : List String)
    (nd : Option Int) : List Participant × List Participant :=
  participantIds.foldl (earlyCheckoutStep nd) (ps, [])

/-- A participant satisfies the spec's checkout-date invariant:
`actualCheckoutDate`, if set, is not after `bookingEndDate`. -/
def withinBooking (q : Participant) : Bool :=
  match q.actualCheckoutDate with
  | some d => decide (d ≤ q.bookingEndDate)
  | none => true

/-- Spec invariant over the participants table: every participant's
`actualCheckoutDate`, if set, is not after that participant's
`bookingEndDate`. -/
def ParticipantInvariant (ps : List Participant) : Prop :=
  ∀ q ∈ ps, withinBooking q = true

instance (ps : List Participant) : Decidable (ParticipantInvariant ps) := by
  unfold ParticipantInvariant; infer_instance

/-! ## Coach/official upload (upload.ts: `UploadService.uploadCoachesOfficials`) -/

/-- A row of the `users` table as created for a coach account
(upload.ts:240-246). -/
structure UserRec where
  mobileNumber : String
  name : String
  role : String
  coachId : String
  isActive : Bool
deriving DecidableEq, Repr

/-- One data row of the coach/official sheet after cell extraction, with the
booking dates modelled as parsed timestamps. -/
structure CoachRow where
  role : String
  coachId : String
  name : String
  mobileNumber : String
  discipline : String
  hotelId : String
  hotelName : String
  stadium : String
  bookingStartDate : Int
  bookingEndDate : Int
  bookingReference : String
  transportPoc : String
deriving DecidableEq, Repr

/-- `Math.ceil(a / b)` on integer inputs with `b > 0`. -/
def jsCeilDiv (a b : Int) : Int := -((-a).ediv b)

/-- ASCII lower-casing of one character (the effect of JavaScript's
`toLowerCase` on the ASCII role names used by the sheets). -/
def asciiLower (c : Char) : Char :=
  if 65 ≤ c.toNat ∧ c.toNat ≤ 90 then Char.ofNat (c.toNat + 32) else c

/-- `String.prototype.toLowerCase` restricted to ASCII input. -/
def jsToLower (s : String) : String := String.mk (s.data.map asciiLower)

/-- Milliseconds per day, the divisor of the minimum-stay computation. -/
def msPerDay : Int := 1000 * 3600 * 24

/-- How processing of one coach/official row ended. -/
inductive CoachRowOutcome where
  | hotelNotFound
  | stayTooShort
  | existsWarning
  | created (part : Participant) (newUser : Option UserRec)
deriving DecidableEq, Repr

/-- Processing of one data row of `uploadCoachesOfficials`
(upload.ts:211-267): reject when the hotel (instance `"1"`) is not in the
inventory, reject when the stay is shorter than 3 days, warn-and-skip when
the participant already exists; for a `COACH` row also create a coach user
account when none exists; the created participant's `checkinStatus` is
`checked_in` for `OFFICIAL` rows and `pending` otherwise. -/
def uploadCoachRow (hotelsStore : List Hotel) (parts : List Participant)
    (usersStore : List UserRec) (freshId : String) (row : CoachRow) :
    CoachRowOutcome :=
  match hotelsStore.find? fun h => h.hotelId == row.hotelId && h.instanceCode == "1" with
  | none => .hotelNotFound
  | some _ =>
    if jsCeilDiv (row.bookingEndDate - row.bookingStartDate) msPerDay < 3 then
      .stayTooShort
    else
      match parts.find? fun q => q.participantId == row.coachId with
      | some _ => .existsWarning
      | none =>
        let newUser : Option UserRec :=
          if row.role == "COACH" then
            match usersStore.find? fun u => u.coachId == row.coachId with
            | some _ => none
            | none => some ⟨row.mobileNumber, row.name, "coach", row.coachId, true⟩
          else none
        .created
          ⟨freshId, row.coachId, row.name, some row.mobileNumber,
           jsToLower row.role, row.discipline, none, none, none,
           row.hotelId, row.hotelName, some row.stadium,
           row.bookingStartDate, row.bookingEndDate, row.bookingReference,
           some row.transportPoc,
           (if row.role == "OFFICIAL" then .checked_in else .pending),
           none, none, none⟩
          newUser

/-! ## Lemmas about the overlap condition -/

theorem rangesOverlap_imp_codeOverlap {s1 e1 s2 e2 : Int}
    (h : rangesOverlap s1 e1 s2 e2) : codeOverlap s1 e1 s2 e2 = true := by
  rcases h with ⟨ha, hb⟩
  simp only [codeOverlap, Bool.or_eq_true, Bool.and_eq_true, decide_eq_true_eq]
  omega

theorem codeOverlap_eq_true_iff {s1 e1 s2 e2 : Int} (hw1 : s1 ≤ e1) (hw2 : s2 ≤ e2) :
    codeOverlap s1 e1 s2 e2 = true ↔ rangesOverlap s1 e1 s2 e2 := by
  simp only [codeOverlap, rangesOverlap, Bool.or_eq_true, Bool.and_eq_true,
    decide_eq_true_eq]
  omega

/-! ## Lemmas about field access and update -/

theorem fieldVal_int_inj {a b : Int} (h : FieldVal.int a = FieldVal.int b) : a = b := by
  injection h

theorem setFrom_id (h : Hotel) (p : HotelPatch) (f : HotelField) :
    (h.setFrom p f).id = h.id := by
  cases f
  case occupiedRooms => simp only [Hotel.setFrom]; split <;> rfl
  all_goals rfl

theorem setFrom_hotelId (h : Hotel) (p : HotelPatch) (f : HotelField) :
    (h.setFrom p f).hotelId = h.hotelId := by
  cases f
  case occupiedRooms => simp only [Hotel.setFrom]; split <;> rfl
  all_goals rfl

theorem setFrom_instanceCode (h : Hotel) (p : HotelPatch) (f : HotelField) :
    (h.setFrom p f).instanceCode = h.instanceCode := by
  cases f
  case occupiedRooms => simp only [Hotel.setFrom]; split <;> rfl
  all_goals rfl

theorem applyFrom_id (h : Hotel) (p : HotelPatch) (fs : List HotelField) :
    (h.applyFrom p fs).id = h.id := by
  induction fs generalizing h with
  | nil => rfl
  | cons f fs ih =>
    show (Hotel.applyFrom (h.setFrom p f) p fs).id = h.id
    rw [ih, setFrom_id]

theorem applyFrom_hotelId (h : Hotel) (p : HotelPatch) (fs : List HotelField) :
    (h.applyFrom p fs).hotelId = h.hotelId := by
  induction fs generalizing h with
  | nil => rfl
  | cons f fs ih =>
    show (Hotel.applyFrom (h.setFrom p f) p fs).hotelId = h.hotelId
    rw [ih, setFrom_hotelId]

theorem applyFrom_instanceCode (h : Hotel) (p : HotelPatch) (fs : List HotelField) :
    (h.applyFrom p fs).instanceCode = h.instanceCode := by
  induction fs generalizing h with
  | nil => rfl
  | cons f fs ih =>
    show (Hotel.applyFrom (h.setFrom p f) p fs).instanceCode = h.instanceCode
    rw [ih, setFrom_instanceCode]

theorem getField_setFrom_self (h : Hotel) (p : HotelPatch) (f : HotelField) :
    (h.setFrom p f).getField f = (p.getField? f).getD (h.getField f) := by
  cases f
  case occupiedRooms =>
    simp only [Hotel.setFrom, HotelPatch.getField?]
    cases p.occupiedRooms <;> rfl
  all_goals rfl

theorem getField_setFrom_ne (h : Hotel) (p : HotelPatch) {f g : HotelField}
    (hne : f ≠ g) : (h.setFrom p g).getField f = h.getField f := by
  cases f <;> cases g <;> (try rfl) <;>
    (try (simp only [Hotel.setFrom]; split <;> rfl)) <;>
    exact absurd rfl hne

theorem getField_applyFrom_not_mem (h : Hotel) (p : HotelPatch) {f : HotelField}
    {fs : List HotelField} (hf : f ∉ fs) :
    (h.applyFrom p fs).getField f = h.getField f := by
  induction fs generalizing h with
  | nil => rfl
  | cons g fs ih =>
    rw [List.mem_cons, not_or] at hf
    show (Hotel.applyFrom (h.setFrom p g) p fs).getField f = h.getField f
    rw [ih (h.setFrom p g) hf.2, getField_setFrom_ne h p hf.1]

theorem getField_applyFrom_mem (h : Hotel) (p : HotelPatch) {f : HotelField}
    {v : FieldVal} {fs : List HotelField} (hf : f ∈ fs)
    (hv : p.getField? f = some v) :
    (h.applyFrom p fs).getField f = v := by
  induction fs generalizing h with
  | nil => cases hf
  | cons g fs ih =>
    by_cases hmem : f ∈ fs
    · exact ih (h.setFrom p g) hmem
    · have hfg : f = g := by
        rcases List.mem_cons.mp hf with h1 | h2
        · exact h1
        · exact absurd h2 hmem
      subst hfg
      show (Hotel.applyFrom (h.setFrom p f) p fs).getField f = v
      rw [getField_applyFrom_not_mem _ p hmem, getField_setFrom_self, hv]
      rfl

theorem applyFrom_startDate_mem (h : Hotel) (p : HotelPatch) {fs : List HotelField}
    (hf : HotelField.startDate ∈ fs) :
    (h.applyFrom p fs).startDate = p.startDate :=
  fieldVal_int_inj (getField_applyFrom_mem h p hf rfl)

theorem applyFrom_endDate_mem (h : Hotel) (p : HotelPatch) {fs : List HotelField}
    (hf : HotelField.endDate ∈ fs) :
    (h.applyFrom p fs).endDate = p.endDate :=
  fieldVal_int_inj (getField_applyFrom_mem h p hf rfl)

theorem applyFrom_startDate_not_mem (h : Hotel) (p : HotelPatch) {fs : List HotelField}
    (hf : HotelField.startDate ∉ fs) :
    (h.applyFrom p fs).startDate = h.startDate :=
  fieldVal_int_inj (getField_applyFrom_not_mem h p hf)

theorem applyFrom_endDate_not_mem (h : Hotel) (p : HotelPatch) {fs : List HotelField}
    (hf : HotelField.endDate ∉ fs) :
    (h.applyFrom p fs).endDate = h.endDate :=
  fieldVal_int_inj (getField_applyFrom_not_mem h p hf)

/-! ## Lemmas about the field diff -/

theorem startDate_eq_of_not_changed {p : HotelPatch} {o : Hotel}
    (h : HotelField.startDate ∉ changedFields p o) : p.startDate = o.startDate := by
  by_contra hne
  apply h
  apply List.mem_filter.mpr
  refine ⟨by decide, ?_⟩
  show decide (FieldVal.int p.startDate ≠ Hotel.getField o .startDate) = true
  rw [decide_eq_true_eq]
  exact fun hh => hne (fieldVal_int_inj hh)

theorem endDate_eq_of_not_changed {p : HotelPatch} {o : Hotel}
    (h : HotelField.endDate ∉ changedFields p o) : p.endDate = o.endDate := by
  by_contra hne
  apply h
  apply List.mem_filter.mpr
  refine ⟨by decide, ?_⟩
  show decide (FieldVal.int p.endDate ≠ Hotel.getField o .endDate) = true
  rw [decide_eq_true_eq]
  exact fun hh => hne (fieldVal_int_inj hh)

theorem conflictList_eq_nil_of_dates_eq {store : List Hotel} {o : Hotel}
    {p : HotelPatch} (h1 : p.startDate = o.startDate) (h2 : p.endDate = o.endDate) :
    conflictList store o p = [] := by
  simp [conflictList, h1, h2]

theorem conflictList_eq_check_of_ne {store : List Hotel} {o : Hotel} {p : HotelPatch}
    (h : p.startDate ≠ o.startDate ∨ p.endDate ≠ o.endDate) :
    conflictList store o p =
      checkHotelDateConflicts store o.hotelId o.instanceCode p.startDate p.endDate := by
  unfold conflictList
  rw [if_pos]
  rw [Bool.or_eq_true, bne_iff_ne, bne_iff_ne]
  exact h

/-! ## Characterizations of the update handler's branches -/

theorem find?_id_eq {store : List Hotel} {id : String} {o : Hotel}
    (h : store.find? (fun x => x.id == id) = some o) : o ∈ store ∧ o.id = id := by
  refine ⟨List.mem_of_find?_eq_some h, ?_⟩
  have := List.find?_some h
  simpa [beq_iff_eq] using this

theorem instOf_eq_of_pw_empty {p : HotelPatch} {o : Hotel}
    (h : pwOf p o = []) : instOf p o = changedFields p o := by
  unfold instOf
  apply List.filter_eq_self.mpr
  intro f hf
  have hfalse : isPropertyWide f = false := by
    cases hb : isPropertyWide f
    · rfl
    · exact absurd (h ▸ List.mem_filter.mpr ⟨hf, hb⟩) (List.not_mem_nil f)
  simp [hfalse]

theorem getField_isSome_of_pw {p : HotelPatch} {f : HotelField}
    (h : isPropertyWide f = true) : ∃ v, p.getField? f = some v := by
  cases f
  case address => exact ⟨_, rfl⟩
  case location => exact ⟨_, rfl⟩
  case pincode => exact ⟨_, rfl⟩
  case district => exact ⟨_, rfl⟩
  all_goals simp [isPropertyWide] at h

theorem not_mem_instOf_of_mem_pwOf {p : HotelPatch} {o : Hotel} {f : HotelField}
    (h : f ∈ pwOf p o) : f ∉ instOf p o := by
  intro hi
  have h1 := (List.mem_filter.mp h).2
  have h2 := (List.mem_filter.mp hi).2
  rw [h1] at h2
  simp at h2

theorem putAdminHotel_conflict_case {store : List Hotel} {userId id : String}
    {p : HotelPatch} {o : Hotel}
    (hfind : store.find? (fun h => h.id == id) = some o)
    (hc : (conflictList store o p).length > 0) :
    putAdminHotel store userId id p =
      ⟨.dateConflict ((conflictList store o p).map fun h =>
          ⟨h.id, h.instanceCode, h.startDate, h.endDate⟩), store, []⟩ := by
  unfold putAdminHotel
  rw [hfind]
  show putCore store userId id p o = _
  unfold putCore
  rw [if_pos hc]

theorem putAdminHotel_nochange_case {store : List Hotel} {userId id : String}
    {p : HotelPatch} {o : Hotel}
    (hfind : store.find? (fun h => h.id == id) = some o)
    (hc : ¬ (conflictList store o p).length > 0)
    (hch : (changedFields p o).isEmpty = true) :
    putAdminHotel store userId id p = ⟨.noChanges o, store, []⟩ := by
  unfold putAdminHotel
  rw [hfind]
  show putCore store userId id p o = _
  unfold putCore
  rw [if_neg hc, if_pos hch]

theorem not_conflict_of_isUpdated {store : List Hotel} {userId id : String}
    {p : HotelPatch} {o : Hotel}
    (hfind : store.find? (fun h => h.id == id) = some o)
    (hupd : (putAdminHotel store userId id p).outcome.isUpdated = true) :
    ¬ (conflictList store o p).length > 0 := by
  intro hc
  rw [putAdminHotel_conflict_case hfind hc] at hupd
  simp [UpdateOutcome.isUpdated] at hupd

theorem changed_nonempty_of_isUpdated {store : List Hotel} {userId id : String}
    {p : HotelPatch} {o : Hotel}
    (hfind : store.find? (fun h => h.id == id) = some o)
    (hupd : (putAdminHotel store userId id p).outcome.isUpdated = true) :
    ¬ (changedFields p o).isEmpty = true := by
  intro hch
  rw [putAdminHotel_nochange_case hfind (not_conflict_of_isUpdated hfind hupd) hch]
    at hupd
  simp [UpdateOutcome.isUpdated] at hupd

theorem pwStore_find {store : List Hotel} {id : String} {o : Hotel} (p : HotelPatch)
    (hfind : store.find? (fun h => h.id == id) = some o) :
    (pwStore store o p).find? (fun h => h.id == id) =
      some (if (pwOf p o).isEmpty then o else o.applyFrom p (pwOf p o)) := by
  unfold pwStore
  by_cases hp : (pwOf p o).isEmpty = true
  · rw [if_pos hp, hfind, if_pos hp]
  · rw [if_neg hp, if_neg hp]
    unfold updateHotelsByHotelId
    rw [List.find?_map]
    have hcomp : ((fun h : Hotel => h.id == id) ∘
        fun h => if h.hotelId == o.hotelId then h.applyFrom p (pwOf p o) else h) =
        fun h : Hotel => h.id == id := by
      funext h
      simp only [Function.comp]
      split
      · rw [applyFrom_id]
      · rfl
    rw [hcomp, hfind]
    show some (if o.hotelId == o.hotelId then o.applyFrom p (pwOf p o) else o) = _
    rw [if_pos (by simp)]

/-- Shape of the handler's result on the successful path: the property-wide
phase runs first (over all instances of the hotel), then the
instance-specific phase (over the target row only), each emitting its audit
entry. -/
theorem putAdminHotel_success_char (store : List Hotel) (userId id : String)
    (p : HotelPatch) (o : Hotel)
    (hfind : store.find? (fun h => h.id == id) = some o)
    (hc : ¬ (conflictList store o p).length > 0)
    (hch : ¬ (changedFields p o).isEmpty = true) :
    putAdminHotel store userId id p =
      if (instOf p o).isEmpty then
        ⟨.updated o (changedFields p o) (affectedCount store o p),
         pwStore store o p, pwAudits store userId o p⟩
      else
        ⟨.updated ((if (pwOf p o).isEmpty then o else
              o.applyFrom p (pwOf p o)).applyFrom p (instOf p o))
            (changedFields p o) (affectedCount store o p),
         (pwStore store o p).map fun h =>
           if h.id == id then h.applyFrom p (instOf p o) else h,
         pwAudits store userId o p ++
           [⟨userId, "edit", "hotel", id,
             .instanceSpecific o.hotelId o.instanceCode
               (auditChanges o p (instOf p o)) (instOf p o)⟩]⟩ := by
  unfold putAdminHotel
  rw [hfind]
  show putCore store userId id p o = _
  unfold putCore
  rw [if_neg hc, if_neg hch]
  by_cases hi : (instOf p o).isEmpty = true
  · rw [if_pos hi, if_pos hi]
  · rw [if_neg hi, if_neg hi]
    unfold storageUpdateHotel
    rw [pwStore_find p hfind]
    rfl

/-! ## Claim C3: the conflict queries agree with the spec's overlap formula -/

/-- C3.  For a candidate range `[s1, e1]` with `s1 <= e1` and a stored
instance with a well-formed range, the instance is returned by
`checkHotelDateConflicts` iff it is in the table, has the queried `hotelId`,
an `instanceCode` different from the excluded one, and its range satisfies
the spec formula `s1 <= e2 AND s2 <= e1`; and it is returned by
`getHotelsWithOverlappingDates` iff the same holds without the
`instanceCode` exclusion.  Touching boundaries therefore count as
overlapping, and the code's three-disjunct condition is equivalent to the
spec's formula on well-formed ranges. -/
theorem conflict_query_matches_spec_overlap :
    ∀ (store : List Hotel) (hid ex : String) (s1 e1 : Int) (h : Hotel),
      s1 ≤ e1 → h.startDate ≤ h.endDate →
      ((h ∈ checkHotelDateConflicts store hid ex s1 e1 ↔
          h ∈ store ∧ h.hotelId = hid ∧ h.instanceCode ≠ ex ∧
            rangesOverlap s1 e1 h.startDate h.endDate) ∧
       (h ∈ getHotelsWithOverlappingDates store hid s1 e1 ↔
          h ∈ store ∧ h.hotelId = hid ∧
            rangesOverlap s1 e1 h.startDate h.endDate)) := by
  intro store hid ex s1 e1 h hw1 hw2
  constructor
  · simp only [checkHotelDateConflicts, List.mem_filter, Bool.and_eq_true,
      beq_iff_eq, bne_iff_ne, codeOverlap_eq_true_iff hw1 hw2]
    try tauto
  · simp only [getHotelsWithOverlappingDates, List.mem_filter, Bool.and_eq_true,
      beq_iff_eq, codeOverlap_eq_true_iff hw1 hw2]
    try tauto

theorem conflict_query_matches_spec_overlap_witness :
    ((⟨"b1", "H1", "B", "N", "L", "D", "Ad", "P", 20, 30, 10, 0, 10⟩ : Hotel) ∈
        checkHotelDateConflicts
          [⟨"a1", "H1", "A", "N", "L", "D", "Ad", "P", 1, 15, 10, 0, 10⟩,
           ⟨"b1", "H1", "B", "N", "L", "D", "Ad", "P", 20, 30, 10, 0, 10⟩]
          "H1" "A" 1 21 ↔
      (⟨"b1", "H1", "B", "N", "L", "D", "Ad", "P", 20, 30, 10, 0, 10⟩ : Hotel) ∈
          [⟨"a1", "H1", "A", "N", "L", "D", "Ad", "P", 1, 15, 10, 0, 10⟩,
           ⟨"b1", "H1", "B", "N", "L", "D", "Ad", "P", 20, 30, 10, 0, 10⟩] ∧
        (⟨"b1", "H1", "B", "N", "L", "D", "Ad", "P", 20, 30, 10, 0, 10⟩ : Hotel).hotelId = "H1" ∧
        (⟨"b1", "H1", "B", "N", "L", "D", "Ad", "P", 20, 30, 10, 0, 10⟩ : Hotel).instanceCode ≠ "A" ∧
        rangesOverlap 1 21 20 30) ∧
    ((⟨"b1", "H1", "B", "N", "L", "D", "Ad", "P", 20, 30, 10, 0, 10⟩ : Hotel) ∈
        getHotelsWithOverlappingDates
          [⟨"a1", "H1", "A", "N", "L", "D", "Ad", "P", 1, 15, 10, 0, 10⟩,
           ⟨"b1", "H1", "B", "N", "L", "D", "Ad", "P", 20, 30, 10, 0, 10⟩]
          "H1" 1 21 ↔
      (⟨"b1", "H1", "B", "N", "L", "D", "Ad", "P", 20, 30, 10, 0, 10⟩ : Hotel) ∈
          [⟨"a1", "H1", "A", "N", "L", "D", "Ad", "P", 1, 15, 10, 0, 10⟩,
           ⟨"b1", "H1", "B", "N", "L", "D", "Ad", "P", 20, 30, 10, 0, 10⟩] ∧
        (⟨"b1", "H1", "B", "N", "L", "D", "Ad", "P", 20, 30, 10, 0, 10⟩ : Hotel).hotelId = "H1" ∧
        rangesOverlap 1 21 20 30) :=
  conflict_query_matches_spec_overlap
    [⟨"a1", "H1", "A", "N", "L", "D", "Ad", "P", 1, 15, 10, 0, 10⟩,
     ⟨"b1", "H1", "B", "N", "L", "D", "Ad", "P", 20, 30, 10, 0, 10⟩]
    "H1" "A" 1 21 ⟨"b1", "H1", "B", "N", "L", "D", "Ad", "P", 20, 30, 10, 0, 10⟩
    (by decide) (by decide)

/-! ## Claim C9: a no-change patch is a no-op -/

/-- C9.  When no field of the patch differs from the stored record, the
handler returns the explicit no-changes result, leaves the hotels table
untouched, and writes zero audit entries. -/
theorem no_change_patch_is_noop :
    ∀ (store : List Hotel) (userId id : String) (p : HotelPatch) (o : Hotel),
      store.find? (fun h => h.id == id) = some o →
      changedFields p o = [] →
      putAdminHotel store userId id p = ⟨.noChanges o, store, []⟩ := by
  intro store userId id p o hfind hch
  have hs : p.startDate = o.startDate :=
    startDate_eq_of_not_changed (by rw [hch]; exact List.not_mem_nil _)
  have he : p.endDate = o.endDate :=
    endDate_eq_of_not_changed (by rw [hch]; exact List.not_mem_nil _)
  unfold putAdminHotel
  rw [hfind]
  show putCore store userId id p o = _
  unfold putCore
  rw [conflictList_eq_nil_of_dates_eq hs he]
  simp [hch]

theorem no_change_patch_is_noop_witness :
    putAdminHotel
        [⟨"a1", "H1", "A", "N", "L", "D", "Ad", "P", 1, 15, 10, 0, 10⟩]
        "u" "a1" ⟨"N", "L", "D", "Ad", "P", 1, 15, 10, none, 10⟩ =
      ⟨.noChanges ⟨"a1", "H1", "A", "N", "L", "D", "Ad", "P", 1, 15, 10, 0, 10⟩,
       [⟨"a1", "H1", "A", "N", "L", "D", "Ad", "P", 1, 15, 10, 0, 10⟩], []⟩ :=
  no_change_patch_is_noop
    [⟨"a1", "H1", "A", "N", "L", "D", "Ad", "P", 1, 15, 10, 0, 10⟩]
    "u" "a1" ⟨"N", "L", "D", "Ad", "P", 1, 15, 10, none, 10⟩
    ⟨"a1", "H1", "A", "N", "L", "D", "Ad", "P", 1, 15, 10, 0, 10⟩
    (by decide) (by decide)

/-! ## Claim C2: an overlapping date edit fails with DateConflict, no write -/

/-- C2.  When the patch's dates differ from the stored instance's and the new
range overlaps some other instance of the same `hotelId` (different
`instanceCode`), the handler fails with a `DateConflict` carrying the list of
conflicting instances as (id, instanceCode, startDate, endDate), leaves the
hotels table untouched, and writes no audit entry. -/
theorem date_conflict_blocks_update :
    ∀ (store : List Hotel) (userId id : String) (p : HotelPatch) (o : Hotel),
      store.find? (fun h => h.id == id) = some o →
      (p.startDate ≠ o.startDate ∨ p.endDate ≠ o.endDate) →
      (∃ h ∈ store, h.hotelId = o.hotelId ∧ h.instanceCode ≠ o.instanceCode ∧
          rangesOverlap p.startDate p.endDate h.startDate h.endDate) →
      putAdminHotel store userId id p =
        ⟨.dateConflict
            ((checkHotelDateConflicts store o.hotelId o.instanceCode
                p.startDate p.endDate).map fun h =>
              ⟨h.id, h.instanceCode, h.startDate, h.endDate⟩),
         store, []⟩ := by
  intro store userId id p o hfind hdiff hconf
  unfold putAdminHotel
  rw [hfind]
  show putCore store userId id p o = _
  unfold putCore
  rw [conflictList_eq_check_of_ne hdiff]
  have hlen : 0 <
      (checkHotelDateConflicts store o.hotelId o.instanceCode
        p.startDate p.endDate).length := by
    obtain ⟨h, hmem, hh, hic, hov⟩ := hconf
    apply List.length_pos_of_mem
    show h ∈ _
    simp only [checkHotelDateConflicts, List.mem_filter, Bool.and_eq_true,
      beq_iff_eq, bne_iff_ne]
    exact ⟨hmem, ⟨hh, hic⟩, rangesOverlap_imp_codeOverlap hov⟩
  rw [if_pos hlen]

theorem date_conflict_blocks_update_witness :
    putAdminHotel
        [⟨"a1", "H1", "A", "N", "L", "D", "Ad", "P", 1, 15, 10, 0, 10⟩,
         ⟨"b1", "H1", "B", "N", "L", "D", "Ad", "P", 20, 30, 10, 0, 10⟩]
        "u" "a1" ⟨"N", "L", "D", "Ad", "P", 1, 21, 10, none, 10⟩ =
      ⟨.dateConflict
          ((checkHotelDateConflicts
              [⟨"a1", "H1", "A", "N", "L", "D", "Ad", "P", 1, 15, 10, 0, 10⟩,
               ⟨"b1", "H1", "B", "N", "L", "D", "Ad", "P", 20, 30, 10, 0, 10⟩]
              "H1" "A" 1 21).map fun h =>
            ⟨h.id, h.instanceCode, h.startDate, h.endDate⟩),
       [⟨"a1", "H1", "A", "N", "L", "D", "Ad", "P", 1, 15, 10, 0, 10⟩,
        ⟨"b1", "H1", "B", "N", "L", "D", "Ad", "P", 20, 30, 10, 0, 10⟩], []⟩ :=
  date_conflict_blocks_update
    [⟨"a1", "H1", "A", "N", "L", "D", "Ad", "P", 1, 15, 10, 0, 10⟩,
     ⟨"b1", "H1", "B", "N", "L", "D", "Ad", "P", 20, 30, 10, 0, 10⟩]
    "u" "a1" ⟨"N", "L", "D", "Ad", "P", 1, 21, 10, none, 10⟩
    ⟨"a1", "H1", "A", "N", "L", "D", "Ad", "P", 1, 15, 10, 0, 10⟩
    (by decide) (Or.inr (by decide))
    ⟨⟨"b1", "H1", "B", "N", "L", "D", "Ad", "P", 20, 30, 10, 0, 10⟩, by decide⟩

/-! ## Claim C8: an instance-specific-only patch writes only the target -/

/-- C8.  When the diff contains no property-wide field (and the update
succeeds), only the target row is written: every other row of the hotels
table is unchanged and still present, the table keeps its length, and the
handler emits exactly one audit entry, the instance-specific one, carrying
the `instanceCode` and the per-field before/after values (in particular no
property-wide entry is emitted). -/
theorem instance_specific_update_frames :
    ∀ (store : List Hotel) (userId id : String) (p : HotelPatch) (o : Hotel),
      store.find? (fun h => h.id == id) = some o →
      pwOf p o = [] →
      (putAdminHotel store userId id p).outcome.isUpdated = true →
      ((∀ h ∈ store, h.id ≠ o.id → h ∈ (putAdminHotel store userId id p).store) ∧
       (putAdminHotel store userId id p).store.length = store.length ∧
       (putAdminHotel store userId id p).audits =
         [⟨userId, "edit", "hotel", id,
           .instanceSpecific o.hotelId o.instanceCode
             (auditChanges o p (changedFields p o)) (changedFields p o)⟩]) := by
  intro store userId id p o hfind hpw hupd
  have hc := not_conflict_of_isUpdated hfind hupd
  have hch := changed_nonempty_of_isUpdated hfind hupd
  have hinsteq : instOf p o = changedFields p o := instOf_eq_of_pw_empty hpw
  have hinstne : ¬ (instOf p o).isEmpty = true := by rw [hinsteq]; exact hch
  have hchar := putAdminHotel_success_char store userId id p o hfind hc hch
  rw [if_neg hinstne] at hchar
  have hpwStoreEq : pwStore store o p = store := by simp [pwStore, hpw]
  have hpwAudEq : pwAudits store userId o p = [] := by simp [pwAudits, hpw]
  rw [hchar]
  simp only [hpwStoreEq, hpwAudEq, hinsteq, List.nil_append]
  have hoid : o.id = id := (find?_id_eq hfind).2
  refine ⟨?_, ?_, by simp⟩
  · intro h hm hne
    refine List.mem_map.mpr ⟨h, hm, ?_⟩
    have hne2 : ¬ ((h.id == id) = true) := by
      rw [beq_iff_eq, ← hoid]
      exact hne
    exact if_neg hne2
  · exact List.length_map store _

theorem instance_specific_update_frames_witness :
    ((∀ h ∈ [(⟨"a1", "H1", "A", "N", "L", "D", "Ad", "P", 1, 15, 10, 0, 10⟩ : Hotel),
              ⟨"b1", "H1", "B", "N", "L", "D", "Ad", "P", 20, 30, 10, 0, 10⟩],
        h.id ≠ (⟨"a1", "H1", "A", "N", "L", "D", "Ad", "P", 1, 15, 10, 0, 10⟩ : Hotel).id →
        h ∈ (putAdminHotel
              [⟨"a1", "H1", "A", "N", "L", "D", "Ad", "P", 1, 15, 10, 0, 10⟩,
               ⟨"b1", "H1", "B", "N", "L", "D", "Ad", "P", 20, 30, 10, 0, 10⟩]
              "u" "a1" ⟨"N", "L", "D", "Ad", "P", 1, 15, 77, none, 10⟩).store) ∧
     (putAdminHotel
        [⟨"a1", "H1", "A", "N", "L", "D", "Ad", "P", 1, 15, 10, 0, 10⟩,
         ⟨"b1", "H1", "B", "N", "L", "D", "Ad", "P", 20, 30, 10, 0, 10⟩]
        "u" "a1" ⟨"N", "L", "D", "Ad", "P", 1, 15, 77, none, 10⟩).store.length =
       ([(⟨"a1", "H1", "A", "N", "L", "D", "Ad", "P", 1, 15, 10, 0, 10⟩ : Hotel),
         ⟨"b1", "H1", "B", "N", "L", "D", "Ad", "P", 20, 30, 10, 0, 10⟩]).length ∧
     (putAdminHotel
        [⟨"a1", "H1", "A", "N", "L", "D", "Ad", "P", 1, 15, 10, 0, 10⟩,
         ⟨"b1", "H1", "B", "N", "L", "D", "Ad", "P", 20, 30, 10, 0, 10⟩]
        "u" "a1" ⟨"N", "L", "D", "Ad", "P", 1, 15, 77, none, 10⟩).audits =
       [⟨"u", "edit", "hotel", "a1",
         .instanceSpecific "H1" "A"
           (auditChanges ⟨"a1", "H1", "A", "N", "L", "D", "Ad", "P", 1, 15, 10, 0, 10⟩
             ⟨"N", "L", "D", "Ad", "P", 1, 15, 77, none, 10⟩
             (changedFields ⟨"N", "L", "D", "Ad", "P", 1, 15, 77, none, 10⟩
               ⟨"a1", "H1", "A", "N", "L", "D", "Ad", "P", 1, 15, 10, 0, 10⟩))
           (changedFields ⟨"N", "L", "D", "Ad", "P", 1, 15, 77, none, 10⟩
             ⟨"a1", "H1", "A", "N", "L", "D", "Ad", "P", 1, 15, 10, 0, 10⟩)⟩]) :=
  instance_specific_update_frames
    [⟨"a1", "H1", "A", "N", "L", "D", "Ad", "P", 1, 15, 10, 0, 10⟩,
     ⟨"b1", "H1", "B", "N", "L", "D", "Ad", "P", 20, 30, 10, 0, 10⟩]
    "u" "a1" ⟨"N", "L", "D", "Ad", "P", 1, 15, 77, none, 10⟩
    ⟨"a1", "H1", "A", "N", "L", "D", "Ad", "P", 1, 15, 10, 0, 10⟩
    (by decide) (by decide) (by decide)

/-! ## Claim C4: a property-wide patch updates every instance of the hotel -/

theorem pwStore_field (store : List Hotel) (o : Hotel) (p : HotelPatch)
    (hpwe : ¬ (pwOf p o).isEmpty = true) :
    ∀ h1 ∈ pwStore store o p, h1.hotelId = o.hotelId →
      ∀ f ∈ pwOf p o, p.getField? f = some (h1.getField f) := by
  intro h1 hm1 hhid f hf
  simp only [pwStore, if_neg hpwe, updateHotelsByHotelId] at hm1
  obtain ⟨h, hm, rfl⟩ := List.mem_map.mp hm1
  have hpwf : isPropertyWide f = true := (List.mem_filter.mp hf).2
  obtain ⟨v, hv⟩ := getField_isSome_of_pw (p := p) hpwf
  by_cases hmatch : (h.hotelId == o.hotelId) = true
  · rw [if_pos hmatch]
    rw [hv, getField_applyFrom_mem h p hf hv]
  · exfalso
    rw [if_neg hmatch] at hhid
    exact hmatch (beq_iff_eq.mpr hhid)

/-- C4.  When the diff contains at least one property-wide field (and the
update succeeds), the new values of the property-wide changed fields hold on
every instance sharing the target's `hotelId` in the resulting table, and
exactly one property-wide audit entry is emitted, whose details carry the
`hotelId`, the number of affected instances (the count of instances of that
`hotelId`), and the per-field before/after values. -/
theorem property_wide_update_applies_to_all :
    ∀ (store : List Hotel) (userId id : String) (p : HotelPatch) (o : Hotel),
      store.find? (fun h => h.id == id) = some o →
      pwOf p o ≠ [] →
      (putAdminHotel store userId id p).outcome.isUpdated = true →
      ((∀ h ∈ (putAdminHotel store userId id p).store, h.hotelId = o.hotelId →
          ∀ f ∈ pwOf p o, p.getField? f = some (h.getField f)) ∧
       (putAdminHotel store userId id p).audits.filter
           (fun a => a.details.isPropertyWideEntry) =
         [⟨userId, "edit", "hotel", o.hotelId,
           .propertyWide o.hotelId
             ((store.filter fun h => h.hotelId == o.hotelId).length)
             (auditChanges o p (pwOf p o)) (pwOf p o)⟩]) := by
  intro store userId id p o hfind hpwne hupd
  have hc := not_conflict_of_isUpdated hfind hupd
  have hch := changed_nonempty_of_isUpdated hfind hupd
  have hpwe : ¬ (pwOf p o).isEmpty = true := by
    simpa [List.isEmpty_iff] using hpwne
  have hchar := putAdminHotel_success_char store userId id p o hfind hc hch
  have hlen : (pwUpdatedList store o p).length =
      (store.filter fun h => h.hotelId == o.hotelId).length := by
    rw [pwUpdatedList, if_neg hpwe, List.length_map]
  have haud : pwAudits store userId o p =
      [⟨userId, "edit", "hotel", o.hotelId,
        .propertyWide o.hotelId
          ((store.filter fun h => h.hotelId == o.hotelId).length)
          (auditChanges o p (pwOf p o)) (pwOf p o)⟩] := by
    rw [pwAudits, if_neg hpwe, hlen]
  by_cases hi : (instOf p o).isEmpty = true
  · rw [if_pos hi] at hchar
    rw [hchar]
    refine ⟨?_, ?_⟩
    · exact pwStore_field store o p hpwe
    · rw [haud]
      simp [AuditDetails.isPropertyWideEntry]
  · rw [if_neg hi] at hchar
    rw [hchar]
    refine ⟨?_, ?_⟩
    · intro h1 hm1 hhid f hf
      obtain ⟨h2, hm2, rfl⟩ := List.mem_map.mp hm1
      have hfinst : f ∉ instOf p o := not_mem_instOf_of_mem_pwOf hf
      have hid2 : ∀ h3 : Hotel,
          (if h3.id == id then h3.applyFrom p (instOf p o) else h3).hotelId =
            h3.hotelId := by
        intro h3
        split
        · rw [applyFrom_hotelId]
        · rfl
      have hgf : ∀ h3 : Hotel,
          (if h3.id == id then h3.applyFrom p (instOf p o) else h3).getField f =
            h3.getField f := by
        intro h3
        split
        · rw [getField_applyFrom_not_mem h3 p hfinst]
        · rfl
      rw [hgf h2]
      rw [hid2 h2] at hhid
      exact pwStore_field store o p hpwe h2 hm2 hhid f hf
    · rw [List.filter_append, haud]
      simp [AuditDetails.isPropertyWideEntry]

theorem property_wide_update_applies_to_all_witness :
    ((∀ h ∈ (putAdminHotel
          [⟨"a1", "H1", "A", "N", "L", "D", "Ad", "P", 1, 15, 10, 0, 10⟩,
           ⟨"b1", "H1", "B", "N", "L", "D", "Ad", "P", 20, 30, 10, 0, 10⟩,
           ⟨"c1", "H1", "C", "N", "L", "D", "Ad", "P", 40, 50, 10, 0, 10⟩]
          "u" "a1" ⟨"N", "L", "D2", "Ad", "P", 1, 15, 10, none, 10⟩).store,
        h.hotelId = (⟨"a1", "H1", "A", "N", "L", "D", "Ad", "P", 1, 15, 10, 0, 10⟩ : Hotel).hotelId →
        ∀ f ∈ pwOf ⟨"N", "L", "D2", "Ad", "P", 1, 15, 10, none, 10⟩
            ⟨"a1", "H1", "A", "N", "L", "D", "Ad", "P", 1, 15, 10, 0, 10⟩,
          HotelPatch.getField? ⟨"N", "L", "D2", "Ad", "P", 1, 15, 10, none, 10⟩ f =
            some (h.getField f)) ∧
     (putAdminHotel
        [⟨"a1", "H1", "A", "N", "L", "D", "Ad", "P", 1, 15, 10, 0, 10⟩,
         ⟨"b1", "H1", "B", "N", "L", "D", "Ad", "P", 20, 30, 10, 0, 10⟩,
         ⟨"c1", "H1", "C", "N", "L", "D", "Ad", "P", 40, 50, 10, 0, 10⟩]
        "u" "a1" ⟨"N", "L", "D2", "Ad", "P", 1, 15, 10, none, 10⟩).audits.filter
          (fun a => a.details.isPropertyWideEntry) =
       [⟨"u", "edit", "hotel", "H1",
         .propertyWide "H1"
           (([⟨"a1", "H1", "A", "N", "L", "D", "Ad", "P", 1, 15, 10, 0, 10⟩,
              ⟨"b1", "H1", "B", "N", "L", "D", "Ad", "P", 20, 30, 10, 0, 10⟩,
              ⟨"c1", "H1", "C", "N", "L", "D", "Ad", "P", 40, 50, 10, 0, 10⟩].filter
              fun h : Hotel => h.hotelId == "H1").length)
           (auditChanges ⟨"a1", "H1", "A", "N", "L", "D", "Ad", "P", 1, 15, 10, 0, 10⟩
             ⟨"N", "L", "D2", "Ad", "P", 1, 15, 10, none, 10⟩
             (pwOf ⟨"N", "L", "D2", "Ad", "P", 1, 15, 10, none, 10⟩
               ⟨"a1", "H1", "A", "N", "L", "D", "Ad", "P", 1, 15, 10, 0, 10⟩))
           (pwOf ⟨"N", "L", "D2", "Ad", "P", 1, 15, 10, none, 10⟩
             ⟨"a1", "H1", "A", "N", "L", "D", "Ad", "P", 1, 15, 10, 0, 10⟩)⟩]) :=
  property_wide_update_applies_to_all
    [⟨"a1", "H1", "A", "N", "L", "D", "Ad", "P", 1, 15, 10, 0, 10⟩,
     ⟨"b1", "H1", "B", "N", "L", "D", "Ad", "P", 20, 30, 10, 0, 10⟩,
     ⟨"c1", "H1", "C", "N", "L", "D", "Ad", "P", 40, 50, 10, 0, 10⟩]
    "u" "a1" ⟨"N", "L", "D2", "Ad", "P", 1, 15, 10, none, 10⟩
    ⟨"a1", "H1", "A", "N", "L", "D", "Ad", "P", 1, 15, 10, 0, 10⟩
    (by decide) (by decide) (by decide)

/-! ## Claim C1: date ranges stay pairwise non-overlapping -/

theorem startDate_not_mem_pwOf (p : HotelPatch) (o : Hotel) :
    HotelField.startDate ∉ pwOf p o := by
  intro hmem
  have := (List.mem_filter.mp hmem).2
  simp [isPropertyWide] at this

theorem endDate_not_mem_pwOf (p : HotelPatch) (o : Hotel) :
    HotelField.endDate ∉ pwOf p o := by
  intro hmem
  have := (List.mem_filter.mp hmem).2
  simp [isPropertyWide] at this

theorem mem_instOf_of_changed_not_pw {p : HotelPatch} {o : Hotel} {f : HotelField}
    (hc : f ∈ changedFields p o) (hnpw : isPropertyWide f = false) :
    f ∈ instOf p o :=
  List.mem_filter.mpr ⟨hc, by rw [hnpw]; rfl⟩

/-- Every record of the property-wide phase's output comes from a record of
the input table with the same key fields and the same dates. -/
theorem pwStore_mem_char (store : List Hotel) (o : Hotel) (p : HotelPatch) :
    ∀ h1 ∈ pwStore store o p, ∃ h ∈ store,
      h1.id = h.id ∧ h1.hotelId = h.hotelId ∧ h1.instanceCode = h.instanceCode ∧
      h1.startDate = h.startDate ∧ h1.endDate = h.endDate := by
  intro h1 hm
  by_cases hp : (pwOf p o).isEmpty = true
  · rw [pwStore, if_pos hp] at hm
    exact ⟨h1, hm, rfl, rfl, rfl, rfl, rfl⟩
  · rw [pwStore, if_neg hp, updateHotelsByHotelId] at hm
    obtain ⟨h, hmem, rfl⟩ := List.mem_map.mp hm
    refine ⟨h, hmem, ?_, ?_, ?_, ?_, ?_⟩ <;> split
    · rw [applyFrom_id]
    · rfl
    · rw [applyFrom_hotelId]
    · rfl
    · rw [applyFrom_instanceCode]
    · rfl
    · exact applyFrom_startDate_not_mem h p (startDate_not_mem_pwOf p o)
    · rfl
    · exact applyFrom_endDate_not_mem h p (endDate_not_mem_pwOf p o)
    · rfl

/-- C1.  Both successful paths that write hotel date ranges preserve the
pairwise-non-overlap invariant: a successful `PUT /api/admin/hotels/:id`
(on a table with unique primary keys), and a hotel-inventory upload row that
creates an instance. -/
theorem hotel_ranges_pairwise_disjoint_preserved :
    (∀ (store : List Hotel) (userId id : String) (p : HotelPatch),
       HotelStoreInvariant store →
       (∀ a ∈ store, ∀ b ∈ store, a.id = b.id → a = b) →
       (putAdminHotel store userId id p).outcome.isUpdated = true →
       HotelStoreInvariant (putAdminHotel store userId id p).store) ∧
    (∀ (store : List Hotel) (freshId : String) (row : HotelRow) (h : Hotel),
       HotelStoreInvariant store →
       (uploadHotelRow store freshId row).1 = RowOutcome.created h →
       HotelStoreInvariant (uploadHotelRow store freshId row).2) := by
  constructor
  · intro store userId id p hInv hUniq hupd
    cases hfind : store.find? (fun h => h.id == id) with
    | none =>
      exfalso
      have hres : putAdminHotel store userId id p = ⟨.notFound, store, []⟩ := by
        unfold putAdminHotel; rw [hfind]
      rw [hres] at hupd
      simp [UpdateOutcome.isUpdated] at hupd
    | some o =>
      have ho : o ∈ store ∧ o.id = id := find?_id_eq hfind
      have hc := not_conflict_of_isUpdated hfind hupd
      have hch := changed_nonempty_of_isUpdated hfind hupd
      have hchar := putAdminHotel_success_char store userId id p o hfind hc hch
      -- no stored instance of the hotel (other instanceCode) overlaps the
      -- patch's range
      have hnoov : ∀ h2 ∈ store, h2.hotelId = o.hotelId →
          h2.instanceCode ≠ o.instanceCode →
          ¬ rangesOverlap p.startDate p.endDate h2.startDate h2.endDate := by
        intro h2 hm2 hh2 hic2 hov
        by_cases hdc : p.startDate = o.startDate ∧ p.endDate = o.endDate
        · rw [hdc.1, hdc.2] at hov
          exact hInv o ho.1 h2 hm2 hh2.symm (Ne.symm hic2) hov
        · have hd : p.startDate ≠ o.startDate ∨ p.endDate ≠ o.endDate := by
            tauto
          have hcheck : checkHotelDateConflicts store o.hotelId o.instanceCode
              p.startDate p.endDate = [] := by
            have h0 : (conflictList store o p).length = 0 :=
              Nat.eq_zero_of_not_pos hc
            rw [conflictList_eq_check_of_ne hd] at h0
            exact List.length_eq_zero.mp h0
          have hmem2 : h2 ∈ checkHotelDateConflicts store o.hotelId o.instanceCode
              p.startDate p.endDate := by
            simp only [checkHotelDateConflicts, List.mem_filter, Bool.and_eq_true,
              beq_iff_eq, bne_iff_ne]
            exact ⟨hm2, ⟨hh2, hic2⟩, rangesOverlap_imp_codeOverlap hov⟩
          rw [hcheck] at hmem2
          exact List.not_mem_nil h2 hmem2
      -- characterize the final table: every record is either an untouched
      -- original (up to property-wide fields) or the target with the
      -- patch's dates
      have hfinal : ∀ h1 ∈ (putAdminHotel store userId id p).store, ∃ h ∈ store,
          h1.hotelId = h.hotelId ∧ h1.instanceCode = h.instanceCode ∧
          ((h = o ∧ h1.startDate = p.startDate ∧ h1.endDate = p.endDate) ∨
           (h1.startDate = h.startDate ∧ h1.endDate = h.endDate)) := by
        intro h1 hm1
        by_cases hi : (instOf p o).isEmpty = true
        · rw [if_pos hi] at hchar
          rw [hchar] at hm1
          obtain ⟨h, hm, _, hhid, hicd, hsd, hed⟩ := pwStore_mem_char store o p h1 hm1
          exact ⟨h, hm, hhid, hicd, Or.inr ⟨hsd, hed⟩⟩
        · rw [if_neg hi] at hchar
          rw [hchar] at hm1
          obtain ⟨h2, hm2, rfl⟩ := List.mem_map.mp hm1
          obtain ⟨h, hm, hid2, hhid, hicd, hsd, hed⟩ := pwStore_mem_char store o p h2 hm2
          by_cases hb : (h2.id == id) = true
          · have heqo : h = o := by
              apply hUniq h hm o ho.1
              rw [← hid2, beq_iff_eq.mp hb, ho.2]
            refine ⟨h, hm, ?_, ?_, Or.inl ⟨heqo, ?_, ?_⟩⟩
            · rw [if_pos hb, applyFrom_hotelId, hhid]
            · rw [if_pos hb, applyFrom_instanceCode, hicd]
            · rw [if_pos hb]
              by_cases hmem : HotelField.startDate ∈ instOf p o
              · exact applyFrom_startDate_mem _ p hmem
              · have hnc : HotelField.startDate ∉ changedFields p o := fun hcm =>
                  hmem (mem_instOf_of_changed_not_pw hcm rfl)
                rw [applyFrom_startDate_not_mem _ p hmem, hsd, heqo,
                  startDate_eq_of_not_changed hnc]
            · rw [if_pos hb]
              by_cases hmem : HotelField.endDate ∈ instOf p o
              · exact applyFrom_endDate_mem _ p hmem
              · have hnc : HotelField.endDate ∉ changedFields p o := fun hcm =>
                  hmem (mem_instOf_of_changed_not_pw hcm rfl)
                rw [applyFrom_endDate_not_mem _ p hmem, hed, heqo,
                  endDate_eq_of_not_changed hnc]
          · refine ⟨h, hm, ?_, ?_, Or.inr ⟨?_, ?_⟩⟩
            · rw [if_neg hb, hhid]
            · rw [if_neg hb, hicd]
            · rw [if_neg hb, hsd]
            · rw [if_neg hb, hed]
      -- pairwise disjointness from the characterization
      intro h1 hm1 h2 hm2 hhid hic
      obtain ⟨g1, hg1, hhid1, hic1, hd1⟩ := hfinal h1 hm1
      obtain ⟨g2, hg2, hhid2, hic2, hd2⟩ := hfinal h2 hm2
      rcases hd1 with ⟨he1, hs1, hE1⟩ | ⟨hs1, hE1⟩ <;>
        rcases hd2 with ⟨he2, hs2, hE2⟩ | ⟨hs2, hE2⟩
      · -- both are the target: contradiction with distinct instance codes
        exfalso
        apply hic
        rw [hic1, hic2, he1, he2]
      · -- target vs untouched
        rw [hs1, hE1, hs2, hE2]
        apply hnoov g2 hg2
        · rw [← hhid2, ← hhid, hhid1, he1]
        · rw [← hic2, ← he1]
          intro hcontra
          exact hic (by rw [hic1, hcontra])
      · -- untouched vs target
        rw [hs1, hE1, hs2, hE2]
        intro hov
        apply hnoov g1 hg1 ?_ ?_ ⟨hov.2, hov.1⟩
        · rw [← hhid1, hhid, hhid2, he2]
        · rw [← hic1, ← he2]
          intro hcontra
          exact hic (by rw [hic2, hcontra])
      · -- both untouched
        rw [hs1, hE1, hs2, hE2]
        apply hInv g1 hg1 g2 hg2
        · rw [← hhid1, ← hhid2, hhid]
        · rw [← hic1, ← hic2]
          exact hic
  · intro store freshId row h hInv hcr
    revert hcr
    unfold uploadHotelRow
    split
    · intro hcr; simp at hcr
    · split
      · intro hcr; simp at hcr
      · split
        · intro hcr; simp at hcr
        · rename_i hids hov hx hnone
          intro hcr
          simp only at hcr ⊢
          cases hcr
          -- table afterwards: store ++ [new row record]
          have hno : ∀ x ∈ store, x.hotelId = row.hotelId →
              ¬ rangesOverlap row.startDate row.endDate x.startDate x.endDate := by
            intro x hx hhid hov2
            have hempty : getHotelsWithOverlappingDates store row.hotelId
                row.startDate row.endDate = [] :=
              List.length_eq_zero.mp (Nat.eq_zero_of_not_pos hov)
            have hxmem : x ∈ getHotelsWithOverlappingDates store row.hotelId
                row.startDate row.endDate := by
              simp only [getHotelsWithOverlappingDates, List.mem_filter,
                Bool.and_eq_true, beq_iff_eq]
              exact ⟨hx, hhid, rangesOverlap_imp_codeOverlap hov2⟩
            rw [hempty] at hxmem
            exact List.not_mem_nil x hxmem
          intro h1 hm1 h2 hm2 hhid hic
          rcases List.mem_append.mp hm1 with hm1s | hm1n <;>
            rcases List.mem_append.mp hm2 with hm2s | hm2n
          · exact hInv h1 hm1s h2 hm2s hhid hic
          · have he2 := List.mem_singleton.mp hm2n
            subst he2
            intro hov2
            exact hno h1 hm1s (by simpa using hhid) ⟨hov2.2, hov2.1⟩
          · have he1 := List.mem_singleton.mp hm1n
            subst he1
            intro hov2
            exact hno h2 hm2s (by simpa using hhid.symm) hov2
          · exfalso
            have he1 := List.mem_singleton.mp hm1n
            have he2 := List.mem_singleton.mp hm2n
            subst he1; subst he2
            exact hic rfl

theorem hotel_ranges_pairwise_disjoint_preserved_witness :
    HotelStoreInvariant
      (putAdminHotel
        [⟨"a1", "H1", "A", "N", "L", "D", "Ad", "P", 1, 15, 10, 0, 10⟩,
         ⟨"b1", "H1", "B", "N", "L", "D", "Ad", "P", 20, 30, 10, 0, 10⟩]
        "u" "a1" ⟨"N", "L", "D", "Ad", "P", 1, 19, 10, none, 10⟩).store :=
  hotel_ranges_pairwise_disjoint_preserved.1
    [⟨"a1", "H1", "A", "N", "L", "D", "Ad", "P", 1, 15, 10, 0, 10⟩,
     ⟨"b1", "H1", "B", "N", "L", "D", "Ad", "P", 20, 30, 10, 0, 10⟩]
    "u" "a1" ⟨"N", "L", "D", "Ad", "P", 1, 19, 10, none, 10⟩
    (by decide) (by decide) (by decide)

/-! ## Claim C5: duplicate (hotelId, instanceCode) upload rows -/

/-- C5 counterexample.  A hotel-inventory row whose (hotelId, instanceCode)
pair already exists but whose dates overlap the existing instance is recorded
as an error (`overlapError`), not as a warning: the overlap check runs before
the duplicate check, so the claim's "regardless of the row's date range" is
false. -/
theorem duplicate_overlapping_row_errors :
    (([(⟨"a1", "H1", "1", "N", "L", "D", "Ad", "P", 0, 10, 10, 0, 10⟩ : Hotel)].find?
        fun h => h.hotelId == "H1" && h.instanceCode == "1").isSome = true) ∧
    uploadHotelRow [⟨"a1", "H1", "1", "N", "L", "D", "Ad", "P", 0, 10, 10, 0, 10⟩] "n1"
        ⟨"H1", "1", "N", "L", "D", "Ad", "P", 0, 10, 10, 0, 10⟩ =
      (RowOutcome.overlapError,
       [⟨"a1", "H1", "1", "N", "L", "D", "Ad", "P", 0, 10, 10, 0, 10⟩]) := by
  decide

/-- C5 (amended).  A row whose exact (hotelId, instanceCode) pair already
exists is never created; it contributes a warning (`existsWarning`) exactly
when its ids are present and its date range does not overlap any existing
instance of the same hotelId — an overlapping duplicate row is recorded as an
error instead, because the overlap check runs first. -/
theorem duplicate_row_warns_when_no_overlap :
    ∀ (store : List Hotel) (freshId : String) (row : HotelRow),
      ¬ (row.hotelId == "" || row.instanceCode == "") = true →
      (store.find? fun h =>
        h.hotelId == row.hotelId && h.instanceCode == row.instanceCode).isSome = true →
      getHotelsWithOverlappingDates store row.hotelId row.startDate row.endDate = [] →
      uploadHotelRow store freshId row = (RowOutcome.existsWarning, store) := by
  intro store freshId row hids hdup hov
  unfold uploadHotelRow
  rw [if_neg hids]
  rw [if_neg (by rw [hov]; simp)]
  obtain ⟨x, hx⟩ := Option.isSome_iff_exists.mp hdup
  rw [hx]

theorem duplicate_row_warns_when_no_overlap_witness :
    uploadHotelRow [(⟨"a1", "H1", "1", "N", "L", "D", "Ad", "P", 0, 10, 10, 0, 10⟩ : Hotel)]
        "n1" ⟨"H1", "1", "N", "L", "D", "Ad", "P", 20, 30, 10, 0, 10⟩ =
      (RowOutcome.existsWarning,
       [⟨"a1", "H1", "1", "N", "L", "D", "Ad", "P", 0, 10, 10, 0, 10⟩]) :=
  duplicate_row_warns_when_no_overlap
    [⟨"a1", "H1", "1", "N", "L", "D", "Ad", "P", 0, 10, 10, 0, 10⟩]
    "n1" ⟨"H1", "1", "N", "L", "D", "Ad", "P", 20, 30, 10, 0, 10⟩
    (by decide) (by decide) (by decide)

/-! ## Claim C6: the early-checkout route can break the checkout-date
invariant -/

/-- C6 (code bug evaluation).  Starting from a table satisfying the
checkout-date invariant, an early-checkout request with a `newCheckoutDate`
one unit after the participant's `bookingEndDate` (10) writes
`actualCheckoutDate = 11` — the route performs no comparison against
`bookingEndDate` — so the invariant is violated afterwards. -/
theorem early_checkout_can_exceed_booking_end :
    ParticipantInvariant
      [⟨"i1", "COA_001", "n", some "m", "coach", "d", none, none, none, "H1", "HN",
        none, 0, 10, "BR", none, .checked_in, none, none, none⟩] ∧
    (adminEarlyCheckout
        [⟨"i1", "COA_001", "n", some "m", "coach", "d", none, none, none, "H1", "HN",
          none, 0, 10, "BR", none, .checked_in, none, none, none⟩]
        ["COA_001"] (some 11)).1 =
      [⟨"i1", "COA_001", "n", some "m", "coach", "d", none, none, none, "H1", "HN",
        none, 0, 10, "BR", none, .checked_in, none, none, some 11⟩] ∧
    ¬ ParticipantInvariant
        (adminEarlyCheckout
          [⟨"i1", "COA_001", "n", some "m", "coach", "d", none, none, none, "H1", "HN",
            none, 0, 10, "BR", none, .checked_in, none, none, none⟩]
          ["COA_001"] (some 11)).1 := by
  decide

/-! ## Claim C10: officials are created already checked in -/

/-- C10.  A coach/official upload row that passes all validations creates a
participant whose initial `checkinStatus` is `checked_in` when the row's ROLE
is `OFFICIAL`, and `pending` otherwise. -/
theorem official_rows_start_checked_in :
    ∀ (hotelsStore : List Hotel) (parts : List Participant)
      (usersStore : List UserRec) (freshId : String) (row : CoachRow)
      (q : Participant) (u : Option UserRec),
      uploadCoachRow hotelsStore parts usersStore freshId row = .created q u →
      ((row.role = "OFFICIAL" → q.checkinStatus = .checked_in) ∧
       (row.role ≠ "OFFICIAL" → q.checkinStatus = .pending)) := by
  intro hs parts us fid row q u hcr
  revert hcr
  unfold uploadCoachRow
  split
  · intro hcr; simp at hcr
  · split
    · intro hcr; simp at hcr
    · split
      · intro hcr; simp at hcr
      · intro hcr
        injection hcr with hq hu
        subst hq
        constructor
        · intro hrole
          show (if row.role == "OFFICIAL" then CheckinStatus.checked_in
                else CheckinStatus.pending) = CheckinStatus.checked_in
          rw [if_pos (beq_iff_eq.mpr hrole)]
        · intro hrole
          show (if row.role == "OFFICIAL" then CheckinStatus.checked_in
                else CheckinStatus.pending) = CheckinStatus.pending
          rw [if_neg (fun hb => hrole (beq_iff_eq.mp hb))]

theorem official_rows_start_checked_in_witness :
    (("OFFICIAL" : String) = "OFFICIAL" →
      (⟨"f1", "OFC_001", "n", some "m", "official", "d", none, none, none, "H1", "HN",
        some "S", 0, 259200000, "BR", some "T", .checked_in, none, none,
        none⟩ : Participant).checkinStatus = .checked_in) ∧
    (("OFFICIAL" : String) ≠ "OFFICIAL" →
      (⟨"f1", "OFC_001", "n", some "m", "official", "d", none, none, none, "H1", "HN",
        some "S", 0, 259200000, "BR", some "T", .checked_in, none, none,
        none⟩ : Participant).checkinStatus = .pending) :=
  official_rows_start_checked_in
    [⟨"a1", "H1", "1", "N", "L", "D", "Ad", "P", 1, 15, 10, 0, 10⟩] [] [] "f1"
    ⟨"OFFICIAL", "OFC_001", "n", "m", "d", "H1", "HN", "S", 0, 259200000, "BR", "T"⟩
    ⟨"f1", "OFC_001", "n", some "m", "official", "d", none, none, none, "H1", "HN",
     some "S", 0, 259200000, "BR", some "T", .checked_in, none, none, none⟩
    none (by decide)

/-! ## Claim C7: checkout skips participants whose new date is too late -/

theorem checkoutUpdate_idem (now : Int) (nd : Option Int) (q : Participant) :
    checkoutUpdate now nd (checkoutUpdate now nd q) = checkoutUpdate now nd q := by
  cases nd <;> rfl

theorem uniqBy_map_participant {f : Participant → String}
    {g : Participant → Participant} (hg : ∀ x, f (g x) = f x)
    {l : List Participant}
    (hu : ∀ a ∈ l, ∀ b ∈ l, f a = f b → a = b) :
    ∀ a ∈ l.map g, ∀ b ∈ l.map g, f a = f b → a = b := by
  intro a ha b hb hab
  obtain ⟨a0, ha0, rfl⟩ := List.mem_map.mp ha
  obtain ⟨b0, hb0, rfl⟩ := List.mem_map.mp hb
  rw [hg a0, hg b0] at hab
  rw [hu a0 ha0 b0 hb0 hab]

theorem adminCheckoutStep_found (now : Int) (nd : Option Int)
    (cur upd : List Participant) (pid : String) (q : Participant)
    (hfind : cur.find? (fun r => r.participantId == pid) = some q)
    (hskip : skipByDate nd q = false) :
    adminCheckoutStep now nd (cur, upd) pid =
      match (cur.map fun r =>
          if r.id == q.id then checkoutUpdate now nd r else r).find?
          (fun r => r.id == q.id) with
      | none =>
        (cur.map fun r => if r.id == q.id then checkoutUpdate now nd r else r, upd)
      | some u =>
        (cur.map fun r => if r.id == q.id then checkoutUpdate now nd r else r,
         upd ++ [u]) := by
  unfold adminCheckoutStep
  rw [hfind]
  simp only [hskip]
  rfl

/-- Once a participant is skipped by the date rule, the admin-checkout loop
never touches their record and never adds them to the result list. -/
theorem adminCheckout_skip_aux (now d : Int) (p : Participant)
    (hgt : d > p.bookingEndDate) :
    ∀ (ids : List String) (cur upd : List Participant),
      (∀ a ∈ cur, ∀ b ∈ cur, a.id = b.id → a = b) →
      (∀ a ∈ cur, ∀ b ∈ cur, a.participantId = b.participantId → a = b) →
      p ∈ cur →
      (∀ q ∈ upd, q.id ≠ p.id) →
      (p ∈ (ids.foldl (adminCheckoutStep now (some d)) (cur, upd)).1 ∧
       (∀ a ∈ (ids.foldl (adminCheckoutStep now (some d)) (cur, upd)).1,
         ∀ b ∈ (ids.foldl (adminCheckoutStep now (some d)) (cur, upd)).1,
         a.participantId = b.participantId → a = b) ∧
       (∀ q ∈ (ids.foldl (adminCheckoutStep now (some d)) (cur, upd)).2,
         q.id ≠ p.id)) := by
  intro ids
  induction ids with
  | nil =>
    intro cur upd h1 h2 hp hupd
    exact ⟨hp, h2, hupd⟩
  | cons pid rest ih =>
    intro cur upd h1 h2 hp hupd
    rw [List.foldl_cons]
    rcases hfind : cur.find? (fun r => r.participantId == pid) with _ | q
    · have hstep : adminCheckoutStep now (some d) (cur, upd) pid = (cur, upd) := by
        unfold adminCheckoutStep
        rw [hfind]
      rw [hstep]
      exact ih cur upd h1 h2 hp hupd
    · have hqmem := List.mem_of_find?_eq_some hfind
      by_cases hsk : skipByDate (some d) q = true
      · have hstep : adminCheckoutStep now (some d) (cur, upd) pid = (cur, upd) := by
          unfold adminCheckoutStep
          rw [hfind]
          simp only [hsk]
          rfl
        rw [hstep]
        exact ih cur upd h1 h2 hp hupd
      · have hskf : skipByDate (some d) q = false := by
          revert hsk; cases skipByDate (some d) q <;> simp
        have hqp : q ≠ p := by
          intro he
          apply hsk
          rw [he]
          exact decide_eq_true hgt
        have hqid : q.id ≠ p.id := fun he => hqp (h1 q hqmem p hp he)
        have hstep := adminCheckoutStep_found now (some d) cur upd pid q hfind hskf
        rw [hstep]
        set g := fun r : Participant =>
          if r.id == q.id then checkoutUpdate now (some d) r else r with hgdef
        have hgid : ∀ x : Participant, (g x).id = x.id := by
          intro x; simp only [hgdef]; split <;> rfl
        have hgpid : ∀ x : Participant, (g x).participantId = x.participantId := by
          intro x; simp only [hgdef]; split <;> rfl
        have h1' := uniqBy_map_participant hgid h1
        have h2' := uniqBy_map_participant hgpid h2
        have hp' : p ∈ cur.map g := by
          refine List.mem_map.mpr ⟨p, hp, ?_⟩
          simp only [hgdef]
          rw [if_neg (fun hb => hqid ((beq_iff_eq.mp hb).symm))]
        rcases hfu : (cur.map g).find? (fun r => r.id == q.id) with _ | u
        · rw [hfu]
          exact ih (cur.map g) upd h1' h2' hp' hupd
        · rw [hfu]
          have huid : u.id = q.id := by
            have h0 := List.find?_some hfu
            simpa using h0
          have hupd' : ∀ x ∈ upd ++ [u], x.id ≠ p.id := by
            intro x hx
            rcases List.mem_append.mp hx with hxu | hxs
            · exact hupd x hxu
            · rw [List.mem_singleton.mp hxs, huid]
              exact hqid
          exact ih (cur.map g) (upd ++ [u]) h1' h2' hp' hupd'

/-- Once a participant passes the date rule, processing their id installs the
checked-out version of their record in the table and appends it to the result
list, and the rest of the loop preserves both. -/
theorem adminCheckout_upd_aux (now : Int) (nd : Option Int) (p : Participant)
    (hns : skipByDate nd p = false) :
    ∀ (ids : List String) (cur upd : List Participant),
      (∀ a ∈ cur, ∀ b ∈ cur, a.id = b.id → a = b) →
      (∀ a ∈ cur, ∀ b ∈ cur, a.participantId = b.participantId → a = b) →
      ((p ∈ cur ∧ p.participantId ∈ ids) ∨
       (checkoutUpdate now nd p ∈ cur ∧ checkoutUpdate now nd p ∈ upd)) →
      (checkoutUpdate now nd p ∈ (ids.foldl (adminCheckoutStep now nd) (cur, upd)).1 ∧
       checkoutUpdate now nd p ∈ (ids.foldl (adminCheckoutStep now nd) (cur, upd)).2) := by
  intro ids
  induction ids with
  | nil =>
    intro cur upd h1 h2 hinv
    rcases hinv with ⟨_, hmem⟩ | ⟨ha, hb⟩
    · exact absurd hmem (List.not_mem_nil _)
    · exact ⟨ha, hb⟩
  | cons pid rest ih =>
    intro cur upd h1 h2 hinv
    rw [List.foldl_cons]
    rcases hfind : cur.find? (fun r => r.participantId == pid) with _ | q
    · have hstep : adminCheckoutStep now nd (cur, upd) pid = (cur, upd) := by
        unfold adminCheckoutStep
        rw [hfind]
      rw [hstep]
      rcases hinv with ⟨hp, hmem⟩ | hr
      · rcases List.mem_cons.mp hmem with heq | hrest
        · exact absurd (beq_iff_eq.mpr heq) (List.find?_eq_none.mp hfind p hp)
        · exact ih cur upd h1 h2 (Or.inl ⟨hp, hrest⟩)
      · exact ih cur upd h1 h2 (Or.inr hr)
    · have hqmem := List.mem_of_find?_eq_some hfind
      have hqpid : q.participantId = pid := by
        have h0 := List.find?_some hfind
        simpa using h0
      by_cases hsk : skipByDate nd q = true
      · have hstep : adminCheckoutStep now nd (cur, upd) pid = (cur, upd) := by
          unfold adminCheckoutStep
          rw [hfind]
          simp only [hsk]
          rfl
        rw [hstep]
        rcases hinv with ⟨hp, hmem⟩ | hr
        · rcases List.mem_cons.mp hmem with heq | hrest
          · exfalso
            have hqp : q = p := h2 q hqmem p hp (by rw [hqpid, heq])
            rw [hqp, hns] at hsk
            exact Bool.false_ne_true hsk
          · exact ih cur upd h1 h2 (Or.inl ⟨hp, hrest⟩)
        · exact ih cur upd h1 h2 (Or.inr hr)
      · have hskf : skipByDate nd q = false := by
          revert hsk; cases skipByDate nd q <;> simp
        have hstep := adminCheckoutStep_found now nd cur upd pid q hfind hskf
        rw [hstep]
        set g := fun r : Participant =>
          if r.id == q.id then checkoutUpdate now nd r else r with hgdef
        have hgid : ∀ x : Participant, (g x).id = x.id := by
          intro x; simp only [hgdef]; split <;> rfl
        have hgpid : ∀ x : Participant, (g x).participantId = x.participantId := by
          intro x; simp only [hgdef]; split <;> rfl
        have h1' := uniqBy_map_participant hgid h1
        have h2' := uniqBy_map_participant hgpid h2
        have hgcu : g (checkoutUpdate now nd p) = checkoutUpdate now nd p := by
          simp only [hgdef]
          split
          · exact checkoutUpdate_idem now nd p
          · rfl
        rcases hinv with ⟨hp, hmem⟩ | ⟨hg1, hg2⟩
        · by_cases hpeq : pid = p.participantId
          · have hqp : q = p := h2 q hqmem p hp (by rw [hqpid, hpeq])
            subst hqp
            have hcu_mem : checkoutUpdate now nd q ∈ cur.map g := by
              refine List.mem_map.mpr ⟨q, hp, ?_⟩
              simp only [hgdef]
              rw [if_pos (by simp)]
            rcases hfu : (cur.map g).find? (fun r => r.id == q.id) with _ | u
            · exfalso
              exact (List.find?_eq_none.mp hfu _ hcu_mem) (beq_iff_eq.mpr rfl)
            · have hu_mem := List.mem_of_find?_eq_some hfu
              have huid : u.id = q.id := by
                have h0 := List.find?_some hfu
                simpa using h0
              have hueq : u = checkoutUpdate now nd q :=
                h1' u hu_mem (checkoutUpdate now nd q) hcu_mem (by rw [huid]; rfl)
              rw [hfu]
              apply ih (cur.map g) (upd ++ [u]) h1' h2'
              refine Or.inr ⟨hcu_mem, ?_⟩
              exact List.mem_append_right _
                (by rw [hueq]; exact List.mem_singleton_self _)
          · have hqnp : q.id ≠ p.id := by
              intro he
              have hqp : q = p := h1 q hqmem p hp he
              rw [hqp] at hqpid
              exact hpeq hqpid.symm
            have hp' : p ∈ cur.map g := by
              refine List.mem_map.mpr ⟨p, hp, ?_⟩
              simp only [hgdef]
              rw [if_neg (fun hb => hqnp ((beq_iff_eq.mp hb).symm))]
            have hrest : p.participantId ∈ rest := by
              rcases List.mem_cons.mp hmem with heq | hr
              · exact absurd heq.symm hpeq
              · exact hr
            rcases hfu : (cur.map g).find? (fun r => r.id == q.id) with _ | u
            · rw [hfu]
              exact ih (cur.map g) upd h1' h2' (Or.inl ⟨hp', hrest⟩)
            · rw [hfu]
              exact ih (cur.map g) (upd ++ [u]) h1' h2' (Or.inl ⟨hp', hrest⟩)
        · have hcu_mem' : checkoutUpdate now nd p ∈ cur.map g :=
            List.mem_map.mpr ⟨checkoutUpdate now nd p, hg1, hgcu⟩
          rcases hfu : (cur.map g).find? (fun r => r.id == q.id) with _ | u
          · rw [hfu]
            exact ih (cur.map g) upd h1' h2' (Or.inr ⟨hcu_mem', hg2⟩)
          · rw [hfu]
            exact ih (cur.map g) (upd ++ [u]) h1' h2'
              (Or.inr ⟨hcu_mem', List.mem_append_left _ hg2⟩)

/-- C7.  For an admin checkout request and a listed participant present in
the table (with unique ids and participantIds): when a `newCheckoutDate` is
supplied that lies strictly after the participant's `bookingEndDate`, the
participant is skipped — their stored record is unchanged (so
`checkinStatus`, `checkoutTime` and `actualCheckoutDate` keep their values)
and no entry with their id appears in the returned updated list; otherwise
their record becomes the checked-out version: `checkinStatus = checked_out`,
`checkoutTime = now`, and `actualCheckoutDate = newCheckoutDate` when
provided, and that record is both in the table and in the returned list. -/
theorem checkout_skips_dates_after_booking_end :
    ∀ (ps : List Participant) (ids : List String) (nd : Option Int) (now : Int)
      (p : Participant),
      (∀ a ∈ ps, ∀ b ∈ ps, a.id = b.id → a = b) →
      (∀ a ∈ ps, ∀ b ∈ ps, a.participantId = b.participantId → a = b) →
      p ∈ ps → p.participantId ∈ ids →
      ((∀ d, nd = some d → d > p.bookingEndDate →
          (p ∈ (adminCheckout ps ids nd now).1 ∧
           (∀ q ∈ (adminCheckout ps ids nd now).1,
             q.participantId = p.participantId → q = p) ∧
           (∀ q ∈ (adminCheckout ps ids nd now).2, q.id ≠ p.id))) ∧
       ((∀ d, nd = some d → d ≤ p.bookingEndDate) →
          (checkoutUpdate now nd p ∈ (adminCheckout ps ids nd now).1 ∧
           checkoutUpdate now nd p ∈ (adminCheckout ps ids nd now).2 ∧
           (checkoutUpdate now nd p).checkinStatus = .checked_out ∧
           (checkoutUpdate now nd p).checkoutTime = some now ∧
           (∀ d, nd = some d →
             (checkoutUpdate now nd p).actualCheckoutDate = some d)))) := by
  intro ps ids nd now p h1 h2 hp hmem
  constructor
  · intro d hnd hgt
    subst hnd
    obtain ⟨ha, hb, hc⟩ :=
      adminCheckout_skip_aux now d p hgt ids ps [] h1 h2 hp
        (by intro q hq; exact absurd hq (List.not_mem_nil q))
    refine ⟨ha, ?_, hc⟩
    intro q hq hpid
    exact hb q hq p ha hpid
  · intro hle
    have hns : skipByDate nd p = false := by
      unfold skipByDate
      cases nd with
      | none => rfl
      | some d => exact decide_eq_false (not_lt.mpr (hle d rfl))
    obtain ⟨ha, hb⟩ :=
      adminCheckout_upd_aux now nd p hns ids ps [] h1 h2 (Or.inl ⟨hp, hmem⟩)
    refine ⟨ha, hb, rfl, rfl, ?_⟩
    intro d hnd
    subst hnd
    rfl

theorem checkout_skips_dates_after_booking_end_witness :
    checkoutUpdate 100 (some 9)
        ⟨"i1", "COA_001", "n", some "m", "coach", "d", none, none, none, "H1",
         "HN", none, 0, 10, "BR", none, .checked_in, none, none, none⟩ ∈
      (adminCheckout
        [⟨"i1", "COA_001", "n", some "m", "coach", "d", none, none, none, "H1",
          "HN", none, 0, 10, "BR", none, .checked_in, none, none, none⟩]
        ["COA_001"] (some 9) 100).1 ∧
    checkoutUpdate 100 (some 9)
        ⟨"i1", "COA_001", "n", some "m", "coach", "d", none, none, none, "H1",
         "HN", none, 0, 10, "BR", none, .checked_in, none, none, none⟩ ∈
      (adminCheckout
        [⟨"i1", "COA_001", "n", some "m", "coach", "d", none, none, none, "H1",
          "HN", none, 0, 10, "BR", none, .checked_in, none, none, none⟩]
        ["COA_001"] (some 9) 100).2 ∧
    (checkoutUpdate 100 (some 9)
        ⟨"i1", "COA_001", "n", some "m", "coach", "d", none, none, none, "H1",
         "HN", none, 0, 10, "BR", none, .checked_in, none, none,
         none⟩).checkinStatus = .checked_out ∧
    (checkoutUpdate 100 (some 9)
        ⟨"i1", "COA_001", "n", some "m", "coach", "d", none, none, none, "H1",
         "HN", none, 0, 10, "BR", none, .checked_in, none, none,
         none⟩).checkoutTime = some 100 ∧
    (∀ d, (some 9 : Option Int) = some d →
      (checkoutUpdate 100 (some 9)
        ⟨"i1", "COA_001", "n", some "m", "coach", "d", none, none, none, "H1",
         "HN", none, 0, 10, "BR", none, .checked_in, none, none,
         none⟩).actualCheckoutDate = some d) :=
  (checkout_skips_dates_after_booking_end
    [⟨"i1", "COA_001", "n", some "m", "coach", "d", none, none, none, "H1",
      "HN", none, 0, 10, "BR", none, .checked_in, none, none, none⟩]
    ["COA_001"] (some 9) 100
    ⟨"i1", "COA_001", "n", some "m", "coach", "d", none, none, none, "H1",
     "HN", none, 0, 10, "BR", none, .checked_in, none, none, none⟩
    (by decide) (by decide) (by decide) (by decide)).2
    (by intro d hd; cases hd; decide)

end Ievolve
